import Mathlib

/-!
Verification development for the try-runtime bot's task execution and
orchestration engine.  The TypeScript sources are embedded shallowly:
captured process text is modelled as `List Char`, JS machine values as
`Nat`/`Int`/`Option`, fallible operations return sum types, and the
stateful queue/cancellation logic is modelled as explicit state passing
over event traces.
-/

namespace TryRuntimeBot

/-! ## Text utilities (src/utils.ts) -/

/-- JS `String.prototype.trim` whitespace test, restricted to the
whitespace characters that can occur in captured process output. -/
def isJsWhitespace (c : Char) : Bool :=
  c = ' ' || c = '\n' || c = '\t' || c = '\r'

/-- JS `s.trim()`: drop whitespace from both ends. -/
def trimL (s : List Char) : List Char :=
  ((s.dropWhile isJsWhitespace).reverse.dropWhile isJsWhitespace).reverse

/-- JS `str.replace(pat, rep)` with a *string* pattern: replaces only the
first occurrence of `pat` in the subject (an empty pattern matches at the
start).  This is the primitive used by `redactSecrets` in src/utils.ts. -/
def replaceFirstL (pat rep : List Char) : List Char → List Char
  | [] => if pat.isEmpty then rep else []
  | c :: rest =>
      if pat.isPrefixOf (c :: rest) then rep ++ (c :: rest).drop pat.length
      else c :: replaceFirstL pat rep rest

/-- The fixed placeholder token used by redaction (src/utils.ts line 51). -/
def secretPlaceholder : List Char := "{SECRET}".toList

/-- Embeds `redactSecrets` (src/utils.ts lines 49-54): for each secret in
order, `str = str.replace(secret, "{SECRET}")`. -/
def redactSecretsL (s : List Char) (secrets : List (List Char)) : List Char :=
  secrets.foldl (fun acc sec => replaceFirstL sec secretPlaceholder acc) s

/-- Number of positions of `s` at which `pat` occurs (occurrences counted
at every starting position, so overlapping occurrences all count). -/
def countOccOv (pat : List Char) : List Char → Nat
  | [] => 0
  | c :: rest =>
      (if pat.isPrefixOf (c :: rest) then 1 else 0) + countOccOv pat rest

/-- Fuel-indexed left-to-right non-overlapping replace-all; the fuel is
only a structural-recursion device, any `fuel ≥ s.length` gives the same
answer. -/
def replaceEveryAux (pat rep : List Char) : Nat → List Char → List Char
  | 0, s => s
  | _ + 1, [] => []
  | fuel + 1, c :: rest =>
      if !pat.isEmpty && pat.isPrefixOf (c :: rest) then
        rep ++ replaceEveryAux pat rep fuel ((c :: rest).drop pat.length)
      else c :: replaceEveryAux pat rep fuel rest

/-- The claim's reading of redaction, stated in the claim's own words:
every occurrence of the secret substring is replaced by the placeholder
(left-to-right, non-overlapping).  Kept side by side with the source's
`redactSecretsL` for comparison. -/
def replaceEveryOccurrence (pat rep s : List Char) : List Char :=
  replaceEveryAux pat rep s.length s

/-! ## Command executor result classification (src/executor.ts 54-96) -/

/-- Result of one shell-executor invocation: the resolved value is either
the sanitized stdout string or an `Error` value carrying sanitized text. -/
inductive ExecResult
  | ok (s : List Char)
  | err (e : List Char)
deriving DecidableEq

/-- The OS/launch-level error object passed to the `execFile` callback:
`code` is `error.code` (absent or a number, 0 and absent are JS-falsy),
`text` is `error.stack ?? error.message`. -/
structure ExecError where
  code : Option Int
  text : List Char
deriving DecidableEq

/-- JS `allowedErrorCodes?.includes(code)`: `false` when the option bag
had no `allowedErrorCodes`. -/
def includesCode (allowed : Option (List Int)) (c : Int) : Bool :=
  match allowed with
  | none => false
  | some l => l.contains c

/-- The sanitized stderr computed first in the callback:
`redactSecrets(stderr.toString().trim(), secretsToHide)`. -/
def sanitizedStderrOf (secrets : List (List Char)) (stderr : List Char) : List Char :=
  redactSecretsL (trimL stderr) secrets

/-- Embeds `isErrorMessageAllowed`: the caller's `testAllowedErrorMessage`
predicate applied to the sanitized stderr, `false` when absent. -/
def allowedMsgOf (test : Option (List Char → Bool)) (secrets : List (List Char))
    (stderr : List Char) : Bool :=
  match test with
  | some f => f (sanitizedStderrOf secrets stderr)
  | none => false

/-- Embeds the `execFile` callback of `getShellExecutor`
(src/executor.ts lines 58-95).  The callback first computes the
sanitized stderr and `isErrorMessageAllowed`; only when the predicate
does not accept does it consider the error/stderr branches: an error
object with a JS-truthy code outside the allowed set resolves with that
error (redacted); an error object with a falsy or allowed code falls
through to success; with no error object, a non-empty sanitized stderr
resolves with it as an error; otherwise the sanitized trimmed stdout is
resolved. -/
def classify (secrets : List (List Char)) (allowed : Option (List Int))
    (test : Option (List Char → Bool)) (error? : Option ExecError)
    (stdout stderr : List Char) : ExecResult :=
  let sanitizedStderr := sanitizedStderrOf secrets stderr
  let sanitizedStdout := redactSecretsL (trimL stdout) secrets
  if allowedMsgOf test secrets stderr then ExecResult.ok sanitizedStdout
  else
    match error? with
    | some e =>
        match e.code with
        | some c =>
            if c ≠ 0 && !includesCode allowed c then
              ExecResult.err (redactSecretsL e.text secrets)
            else ExecResult.ok sanitizedStdout
        | none => ExecResult.ok sanitizedStdout
    | none =>
        if sanitizedStderr ≠ [] then ExecResult.err sanitizedStderr
        else ExecResult.ok sanitizedStdout

/-- The classification order exactly as the claim states it: (a) an
OS/launch-level error whose exit code is not in the allowed set wins
first; (b) otherwise the allowed-error predicate; (c) otherwise
non-empty stderr; (d) otherwise stdout.  Written from the claim's words,
for comparison with `classify`. -/
def classifyClaimOrder (secrets : List (List Char)) (allowed : Option (List Int))
    (test : Option (List Char → Bool)) (error? : Option ExecError)
    (stdout stderr : List Char) : ExecResult :=
  let sanitizedStderr := sanitizedStderrOf secrets stderr
  let sanitizedStdout := redactSecretsL (trimL stdout) secrets
  let codeNotAllowed : ExecError → Bool := fun e =>
    match e.code with
    | some c => !includesCode allowed c
    | none => true
  match error? with
  | some e =>
      if codeNotAllowed e then ExecResult.err (redactSecretsL e.text secrets)
      else if allowedMsgOf test secrets stderr then ExecResult.ok sanitizedStdout
      else if sanitizedStderr ≠ [] then ExecResult.err sanitizedStderr
      else ExecResult.ok sanitizedStdout
  | none =>
      if allowedMsgOf test secrets stderr then ExecResult.ok sanitizedStdout
      else if sanitizedStderr ≠ [] then ExecResult.err sanitizedStderr
      else ExecResult.ok sanitizedStdout

/-! ## Preparation pipeline and task body driver (src/executor.ts 108-186, 284-356) -/

/-- A step's outcome as seen by the driving loop: the shell executor has
already applied the step's tolerated-error predicate, so a tolerated
failure arrives as `out` and a real failure as `err`. -/
inductive CommandOutput
  | out (s : String)
  | err (e : String)
deriving DecidableEq

/-- One run's environment for `prepareBranch`: the outcome each of the
nine git/shell steps would produce, plus the outcome of the requested
command itself. -/
structure PrepareWorld where
  mkdirRepoPath : CommandOutput
  clone : CommandOutput
  revParse : CommandOutput
  checkoutDetached : CommandOutput
  remoteRemove : CommandOutput
  remoteAdd : CommandOutput
  fetchBranch : CommandOutput
  branchDelete : CommandOutput
  checkoutTrack : CommandOutput
  commandRun : CommandOutput
deriving DecidableEq

/-- The sequence of values the `prepareBranch` async generator
(src/executor.ts 108-186) yields: `mkdir` and `clone` are yielded, then
`git rev-parse HEAD` is awaited inside the generator; on its failure the
generator returns that error immediately (no further step runs),
otherwise the six remaining steps are yielded in order. -/
def prepareBranchYields (w : PrepareWorld) : List CommandOutput :=
  [w.mkdirRepoPath, w.clone] ++
    (match w.revParse with
     | CommandOutput.err _ => []
     | CommandOutput.out _ =>
         [w.checkoutDetached, w.remoteRemove, w.remoteAdd, w.fetchBranch,
          w.branchDelete, w.checkoutTrack])

/-- The generator's return value (`{done: true, value: …}`): the
rev-parse error when step 3 failed (src/executor.ts 142-147), nothing on
normal completion. -/
def prepareBranchReturn (w : PrepareWorld) : Option CommandOutput :=
  match w.revParse with
  | CommandOutput.err e => some (CommandOutput.err e)
  | CommandOutput.out _ => none

/-- First non-string value among the yielded step results, i.e. the
value at which the driver's `if (typeof o.value !== "string") return
o.value` fires. -/
def firstYieldError : List CommandOutput → Option CommandOutput
  | [] => none
  | CommandOutput.err e :: _ => some (CommandOutput.err e)
  | CommandOutput.out _ :: rest => firstYieldError rest

/-- The success template the task body returns
(src/executor.ts 337-349). -/
def resultsTemplate (commandDisplay output : String) : String :=
  "\nResults are ready for " ++ commandDisplay ++
    "\n\n<details>\n<summary>Output</summary>\n\n```\n" ++ output ++
    "\n```\n\n</details>\n"

/-- JS template interpolation of the command's resolved value: a string
interpolates as itself, an `Error` as its `Error: message` rendering. -/
def outputDisplay : CommandOutput → String
  | CommandOutput.out s => s
  | CommandOutput.err e => "Error: " ++ e

/-- Embeds the task body driver inside `mutex.runExclusive`
(src/executor.ts 306-350) for a run with no cancellation: it pulls the
generator step by step, returns the first yielded non-string value, and
on `o.done` it `break`s — without inspecting the generator's return
value — and proceeds to run the requested command, wrapping whatever the
command resolves in the success template.  The second component records
whether the requested command was executed. -/
def queueTaskBody (w : PrepareWorld) (commandDisplay : String) :
    CommandOutput × Bool :=
  match firstYieldError (prepareBranchYields w) with
  | some e => (e, false)
  | none =>
      (CommandOutput.out (resultsTemplate commandDisplay (outputDisplay w.commandRun)),
       true)

/-! ## Result delivery under cancellation (src/executor.ts 235-278) -/

/-- The fixed cancellation result (src/executor.ts 245). -/
def cancelledMessage : String := "Command was cancelled"

/-- The two things that can happen to a submitted task after admission:
an external `terminate` call through its cancel handle, or the one
settlement of the body promise invoking `afterExecution r`. -/
inductive LifeEv
  | cancel
  | complete (r : String)
deriving DecidableEq

/-- Per-task lifecycle state: `isAlive` is the flag set to `false` by
`terminate`; `stored` tracks the task's presence in the store
(`db.put` at submission, `db.del` in `terminate`); `deliveries` is the
list of results handed to the result sink `onResult`. -/
structure LifeState where
  isAlive : Bool
  stored : Bool
  deliveries : List String
deriving DecidableEq

/-- Embeds the two termination paths of `queue` (src/executor.ts
247-278).  `cancel` is `terminate`: kill the child, clear `isAlive`,
delete the store entry.  `complete r` is `afterExecution(r)`: snapshot
`wasAlive = isAlive`, run `terminate`, and invoke `onResult(r)` only if
the snapshot was alive.  The snapshot and the liveness decision happen
in the same synchronous JS segment, so a step is atomic here. -/
def lifeStep (s : LifeState) : LifeEv → LifeState
  | LifeEv.cancel => { s with isAlive := false, stored := false }
  | LifeEv.complete r =>
      { isAlive := false
        stored := false
        deliveries := if s.isAlive then s.deliveries ++ [r] else s.deliveries }

/-- A task's lifecycle starts alive and stored with nothing delivered. -/
def lifeInit : LifeState := ⟨true, true, []⟩

/-- Run a task's whole lifecycle over an interleaving of cancellations
and the (single) completion. -/
def lifeRun (es : List LifeEv) : LifeState := es.foldl lifeStep lifeInit

/-- Number of `complete` events in a lifecycle trace — the body promise
settles exactly once, so admissible traces have exactly one. -/
def countComplete : List LifeEv → Nat
  | [] => 0
  | LifeEv.cancel :: rest => countComplete rest
  | LifeEv.complete _ :: rest => 1 + countComplete rest

/-- Whether the first lifecycle event is the completion, i.e. no
external cancellation happened before `afterExecution` read `isAlive`. -/
def startsWithComplete : List LifeEv → Bool
  | LifeEv.complete _ :: _ => true
  | _ => false

/-! ## The serializer (src/executor.ts 222, 284-285)

Modelled from the spec: the single `Mutex` comes from the async-mutex
library, whose code is not part of the sources; the spec describes it as
a single global serialization point that admits task bodies first come
first served.  Admission is the `mutex.runExclusive(body)` call made by
`queue` for each submitted task. -/

/-- Observable scheduler events for the serializer: a task is admitted
(`runExclusive` called on its body), a task's body starts, a task's body
finishes. -/
inductive SerEv
  | enqueue (i : Nat)
  | start (i : Nat)
  | finish (i : Nat)
deriving DecidableEq

/-- Serializer state: `admitted` in admission order, `pending` the FIFO
wait queue, `running` the body currently holding the mutex, `started`
in start order, `finished` in finish order. -/
structure SerState where
  admitted : List Nat
  pending : List Nat
  running : Option Nat
  started : List Nat
  finished : List Nat
deriving DecidableEq

/-- Modelled from the spec: one serializer transition.  Admission
appends a fresh task to the wait queue; a body may start only when the
mutex is free and it is the head of the wait queue; a body may finish
only while it is the one running.  `none` means the event is not
enabled. -/
def serStep (s : SerState) : SerEv → Option SerState
  | SerEv.enqueue i =>
      if i ∈ s.admitted then none
      else some { s with admitted := s.admitted ++ [i], pending := s.pending ++ [i] }
  | SerEv.start i =>
      match s.running with
      | some _ => none
      | none =>
          match s.pending with
          | [] => none
          | j :: rest =>
              if j = i then
                some { s with pending := rest, running := some i,
                              started := s.started ++ [i] }
              else none
  | SerEv.finish i =>
      match s.running with
      | some j =>
          if j = i then
            some { s with running := none, finished := s.finished ++ [i] }
          else none
      | none => none

/-- The serializer starts idle and empty. -/
def serInit : SerState := ⟨[], [], none, [], []⟩

/-- Run a whole event trace; `none` when some event was not enabled. -/
def runSer (es : List SerEv) : Option SerState :=
  es.foldlM serStep serInit

/-- The serializer's state invariant: admitted tasks are distinct, the
started tasks followed by the still-waiting tasks list the admitted
tasks in admission order, and the started tasks are exactly the
finished ones followed by the one currently running (if any). -/
def SerInv (s : SerState) : Prop :=
  s.admitted.Nodup ∧
  s.started ++ s.pending = s.admitted ∧
  s.started = s.finished ++ s.running.toList

/-! ## Task store and startup reconciliation (src/unnamed/part_001 20-48)

`src/db` is imported by the sources but is not among them; its `put`,
`del` and `getSortedItems` operations are modelled from the spec
(section 4.1): a durable key-value map with an ordered scan, sorted by
id, filtered by a version predicate. -/

/-- Embeds `PrepareBranchParams` (src/types.ts 11-17). -/
structure PrepareBranchParams where
  contributor : String
  owner : String
  repo : String
  branch : String
  repoPath : String
deriving DecidableEq

/-- Embeds `PullRequestTask` (src/types.ts 19-28). -/
structure PullRequestTask where
  owner : String
  repo : String
  pullNumber : Nat
  installationId : Nat
  requester : String
  execPath : String
  args : List String
  env : List (String × String)
  prepareBranchParams : PrepareBranchParams
  commentId : Nat
  version : String
deriving DecidableEq

/-- The durable task store: an association of task ids to task data. -/
abbrev Store := List (String × PullRequestTask)

/-- Modelled from the spec: `db.put(id, task)` — insert or overwrite. -/
def dbPut (db : Store) (id : String) (td : PullRequestTask) : Store :=
  db.filter (fun e => e.1 ≠ id) ++ [(id, td)]

/-- Modelled from the spec: `db.del(id)`. -/
def dbDel (db : Store) (id : String) : Store :=
  db.filter (fun e => e.1 ≠ id)

/-- Insertion into an id-sorted list. -/
def insertByKey (x : String × PullRequestTask) :
    Store → Store
  | [] => [x]
  | y :: rest => if x.1 ≤ y.1 then x :: y :: rest else y :: insertByKey x rest

/-- Sort store entries by id (ids are sortable timestamps, so this is
submission order). -/
def sortByKey : Store → Store
  | [] => []
  | x :: rest => insertByKey x (sortByKey rest)

/-- Modelled from the spec: `getSortedItems(db, {match: {version,
isInverseMatch}})` — the ordered scan filtered by the version tag, with
`isInverseMatch` selecting the entries whose version differs. -/
def getSortedItems (db : Store) (version : String) (isInverseMatch : Bool) :
    Store :=
  (sortByKey db).filter
    (fun e => if isInverseMatch then e.2.version ≠ version else e.2.version = version)

/-- Embeds `getPullRequestHandleId` (src/utils.ts 94-100). -/
def getPullRequestHandleId (td : PullRequestTask) : String :=
  "owner: " ++ td.owner ++ ", repo: " ++ td.repo ++ ", pull: " ++ toString td.pullNumber

/-- What one `queue(...)` call contributes: a new store entry under a
fresh task id holding the submitted task data verbatim, plus an
in-memory registration under the task's handle id. -/
structure Submission where
  taskId : String
  taskData : PullRequestTask
  handleId : String
deriving DecidableEq

/-- The store/bookkeeping effect of one `queue` call
(src/executor.ts 243, 280, 358): a fresh task id is generated, the task
data is stored under it verbatim, and a cancel handle is registered
under the task's pull-request handle id. -/
def queueSubmit (db : Store) (freshId : String) (td : PullRequestTask) :
    Store × Submission :=
  (dbPut db freshId td, ⟨freshId, td, getPullRequestHandleId td⟩)

/-- One iteration of the reconciler's loop (src/unnamed/part_001 32-47):
delete the stale entry, then resubmit its task data through `queue`
under the next fresh id. -/
def requeueStep (acc : Store × List Submission)
    (p : (String × PullRequestTask) × String) : Store × List Submission :=
  let db1 := dbDel acc.1 p.1.1
  let (db2, sub) := queueSubmit db1 p.2 p.1.2
  (db2, acc.2 ++ [sub])

/-- Embeds `requeueUnterminated` (src/unnamed/part_001 20-48): scan the
store for every entry whose version differs from the boot version, and
for each, delete it and resubmit its task data through the queue.  The
ids `new Date().toISOString()` would generate inside `queue` are passed
in as `freshIds`. -/
def requeueUnterminated (db : Store) (bootVersion : String)
    (freshIds : List String) : Store × List Submission :=
  ((getSortedItems db bootVersion true).zip freshIds).foldl requeueStep (db, [])

/-! ## Queue-position message (src/executor.ts 188-220) -/

/-- The block the `reduce` callback builds for the item at index `i`
(`value` is the serialized store entry). -/
def queueItemBlock (i : Nat) (item : String) : String :=
  "\n\n" ++ toString (i + 1) ++ ":\n\n```\n" ++ item ++ "\n```\n  \n"

/-- Embeds `items.reduce(function (acc, value, i) {…}, "")` from
`getQueueMessage`: the callback builds the block for the current item
and returns it without using `acc`, so the fold keeps only the block of
the final item (and the empty seed for an empty list). -/
def queueItemsDisplay (items : List String) : String :=
  (items.enum.foldl (fun _acc p => queueItemBlock p.1 p.2) "")

/-- Rendering of the queued peers as the claim describes it — every
currently queued peer's contents, in order.  Written from the claim's
words, for comparison with `queueItemsDisplay`. -/
def allItemsDisplay (items : List String) : String :=
  (items.enum.foldl (fun acc p => acc ++ queueItemBlock p.1 p.2) "")

/-- Embeds `getQueueMessage` (src/executor.ts 188-220) applied to the
already-scanned same-version items (each rendered by
`JSON.stringify`): with queued peers present the `Queued …` message
with the reduce rendering, otherwise `Executing …`. -/
def getQueueMessage (items : List String) (commandDisplay : String) : String :=
  if items.length ≠ 0 then
    "\nQueued " ++ commandDisplay ++
      "\n\nThere are other items ahead of it in the queue: " ++
      queueItemsDisplay items
  else "Executing " ++ commandDisplay

/-! ## Remote pipeline adapter (src/unnamed/part_000) -/

/-- Embeds `TaskGitlabPipeline`: the pipeline identity embedded back into the
persisted task. -/
structure TaskGitlabPipeline where
  id : Nat
  projectId : Nat
  webUrl : String
deriving DecidableEq

/-- The handle `getLiveTaskGitlabContext` returns: the pipeline's own
fields spread into the object, plus `terminate` and `waitUntilFinished`
closures; the model records the pipeline each closure operates on. -/
structure LiveTaskGitlabContext where
  id : Nat
  projectId : Nat
  webUrl : String
  terminateTarget : TaskGitlabPipeline
  waitTarget : TaskGitlabPipeline
deriving DecidableEq

/-- Embeds `getLiveTaskGitlabContext` (src/unnamed/part_000 128-179):
`{...pipeline, terminate: () => cancelGitlabPipeline(ctx, pipeline),
waitUntilFinished: …}` — both closures close over the same `pipeline`. -/
def getLiveTaskGitlabContext (p : TaskGitlabPipeline) : LiveTaskGitlabContext :=
  ⟨p.id, p.projectId, p.webUrl, p, p⟩

/-- Embeds `restoreTaskGitlabContext` (src/unnamed/part_000 104-126).
`taskPipeline` is `task.gitlab.pipeline` (absent when the task has no
recorded pipeline) and `fetchedStatus` the status the pipeline-status
endpoint reports for it.  JS `undefined` is the outer `none`, JS `null`
is `some none`. -/
def restoreTaskGitlabContext (taskPipeline : Option TaskGitlabPipeline)
    (fetchedStatus : String) : Option (Option LiveTaskGitlabContext) :=
  match taskPipeline with
  | none => none
  | some p =>
      if fetchedStatus = "canceled" || fetchedStatus = "failed" then some none
      else some (some (getLiveTaskGitlabContext p))

/-- The terminal pipeline statuses of the polling switch
(src/unnamed/part_000 159-165). -/
def terminalStatuses : List String := ["success", "skipped", "canceled", "failed"]

/-- The fixed polling interval (src/unnamed/part_000 169). -/
def pollIntervalMs : Nat := 32768

/-- How one `waitUntilFinished` promise settles. -/
inductive WaitResult
  | resolved (s : String)
  | rejected (e : String)
  | stillPolling
deriving DecidableEq

/-- The runtime fault the terminal branch hits: line 164 executes
`resolve(status)`, but no `status` is bound in the function — the
fetched value is bound as `pipelineStatus` — so evaluating the
identifier in Node throws a ReferenceError. -/
def statusReferenceError : String := "ReferenceError: status is not defined"

/-- Embeds `pollPipelineCompletion` (src/unnamed/part_000 151-174) over
the sequence of statuses successive polls return (one entry per poll,
each 32768 ms apart).  On a non-terminal status the loop re-arms the
timer; on a terminal status it executes `resolve(status)`, whose
argument is an unbound identifier, so the enclosing try/catch turns the
ReferenceError into a rejection of the wait. -/
def pollPipelineCompletion : List String → WaitResult
  | [] => WaitResult.stillPolling
  | st :: rest =>
      if st ∈ terminalStatuses then WaitResult.rejected statusReferenceError
      else pollPipelineCompletion rest

/-- Embeds `waitUntilFinished` (src/unnamed/part_000 143-177): a race
between the cancellation channel's `finished` listener — resolving
immediately with the string `finished` — and the polling loop.
`cancelFirst` records which branch of the race settles first. -/
def waitUntilFinished (cancelFirst : Bool) (polls : List String) : WaitResult :=
  if cancelFirst then WaitResult.resolved "finished"
  else pollPipelineCompletion polls

/-! ## Concrete instances used by witnesses and counterexamples -/

/-- A run in which every step succeeds except step 3
(`git rev-parse HEAD`), and the requested command `echo hi` outputs
`hi`. -/
def prepWorldRevParseFails : PrepareWorld :=
  ⟨CommandOutput.out "", CommandOutput.out "",
   CommandOutput.err "fatal: bad revision",
   CommandOutput.out "", CommandOutput.out "", CommandOutput.out "",
   CommandOutput.out "", CommandOutput.out "", CommandOutput.out "",
   CommandOutput.out "hi"⟩

/-- A `testAllowedErrorMessage` predicate that accepts every stderr
text. -/
def execTestAccepting : Option (List Char → Bool) := some (fun _ => true)

/-- A task persisted by a previous process instance (version `v0`). -/
def sampleTaskV0 : PullRequestTask :=
  ⟨"o", "r", 1, 7, "alice", "echo", ["hi"], [],
   ⟨"c", "o", "r", "b", "/repo"⟩, 5, "v0"⟩

/-! # Theorems -/

/-! ### Helper lemmas about redaction -/

/-- A text with no occurrence of the pattern is left unchanged by the
claim-reading replace-all. -/
theorem replaceEveryAux_of_no_occurrence (pat rep : List Char) :
    ∀ (fuel : Nat) (s : List Char), countOccOv pat s = 0 →
      replaceEveryAux pat rep fuel s = s := by
  intro fuel
  induction fuel with
  | zero => intro s _; rfl
  | succ fuel ih =>
    intro s h
    cases s with
    | nil => rfl
    | cons c rest =>
      have hpre : pat.isPrefixOf (c :: rest) = false := by
        by_contra hcon
        simp only [countOccOv, Bool.not_eq_false] at h hcon
        rw [if_pos hcon] at h
        omega
      have hrest : countOccOv pat rest = 0 := by
        simp only [countOccOv, hpre] at h
        omega
      simp [replaceEveryAux, hpre, ih rest hrest]

/-- Dropping a prefix cannot create occurrences. -/
theorem countOccOv_drop_le (pat : List Char) :
    ∀ (n : Nat) (s : List Char), countOccOv pat (s.drop n) ≤ countOccOv pat s := by
  intro n
  induction n with
  | zero => intro s; simp
  | succ n ih =>
    intro s
    cases s with
    | nil => simp
    | cons c rest =>
      calc countOccOv pat ((c :: rest).drop (n + 1)) = countOccOv pat (rest.drop n) := rfl
        _ ≤ countOccOv pat rest := ih rest
        _ ≤ countOccOv pat (c :: rest) := by
              simp only [countOccOv]; omega

/-- With at most one occurrence of a non-empty pattern in the subject,
replacing the first occurrence and replacing every occurrence agree. -/
theorem replaceFirst_eq_replaceEvery_aux (pat rep : List Char) (hp : pat ≠ []) :
    ∀ (fuel : Nat) (s : List Char), s.length ≤ fuel → countOccOv pat s ≤ 1 →
      replaceFirstL pat rep s = replaceEveryAux pat rep fuel s := by
  have hne : pat.isEmpty = false := by
    cases pat with
    | nil => exact absurd rfl hp
    | cons a t => rfl
  intro fuel
  induction fuel with
  | zero =>
    intro s hs _
    have : s = [] := List.eq_nil_of_length_eq_zero (Nat.le_zero.mp hs)
    subst this
    simp [replaceFirstL, replaceEveryAux, hne]
  | succ fuel ih =>
    intro s hs hc
    cases s with
    | nil => simp [replaceFirstL, replaceEveryAux, hne]
    | cons c rest =>
      by_cases hpre : pat.isPrefixOf (c :: rest)
      · have hrest0 : countOccOv pat rest = 0 := by
          simp only [countOccOv, hpre, if_true] at hc
          omega
        have hdrop0 : countOccOv pat ((c :: rest).drop pat.length) = 0 := by
          have h1 : countOccOv pat ((c :: rest).drop pat.length) ≤
              countOccOv pat (rest.drop (pat.length - 1)) := by
            cases pat with
            | nil => exact absurd rfl hp
            | cons a t => simp
          have h2 : countOccOv pat (rest.drop (pat.length - 1)) ≤ countOccOv pat rest :=
            countOccOv_drop_le pat _ rest
          omega
        simp [replaceFirstL, replaceEveryAux, hpre, hne,
          replaceEveryAux_of_no_occurrence pat rep fuel _ hdrop0]
      · have hprefalse : pat.isPrefixOf (c :: rest) = false :=
          Bool.eq_false_iff.mpr hpre
        have hrest : countOccOv pat rest ≤ 1 := by
          simp only [countOccOv, hprefalse] at hc
          omega
        have hlen : rest.length ≤ fuel := by
          simpa using hs
        simp [replaceFirstL, replaceEveryAux, hprefalse, ih rest hlen hrest]

/-! ### C3 -/

/-- C3: the claim says a non-tolerated failure of step 3
(`git rev-parse HEAD`) terminates preparation with that error as the
task's result and the command is not executed.  The generator does
return the error (`prepareBranchReturn`), but the driver in `queue`
breaks on `o.done` without inspecting the returned value, so the body
proceeds to execute the requested command and returns the success
template instead of the rev-parse error. -/
theorem revParse_failure_not_short_circuited :
    prepareBranchReturn prepWorldRevParseFails =
      some (CommandOutput.err "fatal: bad revision") ∧
    queueTaskBody prepWorldRevParseFails "echo hi" =
      (CommandOutput.out (resultsTemplate "echo hi" "hi"), true) ∧
    (queueTaskBody prepWorldRevParseFails "echo hi").2 = true ∧
    (queueTaskBody prepWorldRevParseFails "echo hi").1 ≠
      CommandOutput.err "fatal: bad revision" := by
  decide

/-! ### C6 -/

/-- C6: the claim says `waitUntilFinished` resolves with the observed
terminal status once the polling loop sees one.  On the poll sequence
`running, running, success` the terminal branch executes
`resolve(status)` whose argument is an unbound identifier, so the wait
is rejected with a ReferenceError instead of resolving with
`"success"`; the cancellation fast path does resolve with
`"finished"`. -/
theorem waitUntilFinished_rejects_on_terminal_status :
    waitUntilFinished false ["running", "running", "success"] =
      WaitResult.rejected statusReferenceError ∧
    waitUntilFinished false ["running", "running", "success"] ≠
      WaitResult.resolved "success" ∧
    waitUntilFinished true ["running"] = WaitResult.resolved "finished" ∧
    pollIntervalMs = 32768 := by
  decide

/-! ### C9 -/

/-- C9: the claim says the queue-position message renders the contents
of all currently queued peers.  The `reduce` callback ignores its
accumulator, so with two queued peers only the second peer's block
survives: the first peer's serialized contents do not occur in the
message at all.  With no peers the message is `Executing <command>` as
claimed. -/
theorem queueMessage_renders_only_last_item :
    queueItemsDisplay ["%1%", "%2%"] = queueItemBlock 1 "%2%" ∧
    queueItemsDisplay ["%1%", "%2%"] ≠ allItemsDisplay ["%1%", "%2%"] ∧
    countOccOv "%1%".toList (getQueueMessage ["%1%", "%2%"] "cmd").toList = 0 ∧
    countOccOv "%2%".toList (getQueueMessage ["%1%", "%2%"] "cmd").toList = 1 ∧
    getQueueMessage [] "cmd" = "Executing cmd" := by
  decide

/-! ### C1 -/

/-- Once a task is dead, later lifecycle events deliver nothing. -/
theorem lifeRun_dead_const (es : List LifeEv) :
    ∀ s : LifeState, s.isAlive = false →
      (es.foldl lifeStep s).deliveries = s.deliveries := by
  induction es with
  | nil => intro s _; rfl
  | cons e rest ih =>
    intro s h
    cases e with
    | cancel =>
      simpa [lifeStep] using ih { s with isAlive := false, stored := false } rfl
    | complete r =>
      have := ih ⟨false, false, s.deliveries⟩ rfl
      simpa [lifeStep, h] using this

/-- C1 counterexample: with an external cancellation arriving before the
body settles, the run has exactly one completion (the process stays up
and `afterExecution` runs), yet nothing — not even the cancellation
message — is delivered to the result sink. -/
theorem cancellation_suppresses_delivery :
    countComplete [LifeEv.cancel, LifeEv.complete cancelledMessage] = 1 ∧
    (lifeRun [LifeEv.cancel, LifeEv.complete cancelledMessage]).deliveries = [] := by
  decide

/-- C1 amended: over every interleaving of external cancellations with
the single settlement of the body promise, the result sink is invoked
at most once; it is invoked exactly once precisely when no cancellation
precedes the completion's liveness check, and then it receives the
body's result; under prior external cancellation delivery is suppressed
entirely. -/
theorem result_delivered_at_most_once (es : List LifeEv) :
    (lifeRun es).deliveries.length ≤ 1 ∧
    ((lifeRun es).deliveries.length = 1 ↔ startsWithComplete es = true) ∧
    (∀ r rest, es = LifeEv.complete r :: rest → (lifeRun es).deliveries = [r]) := by
  cases es with
  | nil => simp [lifeRun, lifeInit, startsWithComplete]
  | cons e rest =>
    cases e with
    | cancel =>
      have h := lifeRun_dead_const rest ⟨false, false, []⟩ rfl
      have hrun : (lifeRun (LifeEv.cancel :: rest)).deliveries = [] := by
        simpa [lifeRun, lifeInit, lifeStep] using h
      refine ⟨by simp [hrun], by simp [hrun, startsWithComplete], ?_⟩
      intro r rest' heq
      exact absurd heq (by simp)
    | complete r =>
      have h := lifeRun_dead_const rest ⟨false, false, [r]⟩ rfl
      have hrun : (lifeRun (LifeEv.complete r :: rest)).deliveries = [r] := by
        simpa [lifeRun, lifeInit, lifeStep] using h
      refine ⟨by simp [hrun], by simp [hrun, startsWithComplete], ?_⟩
      intro r' rest' heq
      have hr : r' = r := by
        injection heq with h1 _
        injection h1 with h2
        exact h2.symm
      subst hr
      exact hrun

/-- C1 witness: a run with no cancellation delivers the body's result
exactly once. -/
theorem result_delivered_at_most_once_witness :
    (lifeRun [LifeEv.complete "done"]).deliveries = ["done"] :=
  (result_delivered_at_most_once [LifeEv.complete "done"]).2.2 "done" [] rfl

/-! ### C4 -/

/-- C4 counterexample: a process error with a non-allowed exit code
together with an accepting allowed-error predicate.  The claim's order
(error first) yields the error; the code checks the predicate first and
yields success with the trimmed stdout. -/
theorem classify_order_counterexample :
    classify [] none execTestAccepting (some ⟨some 1, "launch failed".toList⟩)
        "out".toList "oops".toList = ExecResult.ok "out".toList ∧
    classifyClaimOrder [] none execTestAccepting (some ⟨some 1, "launch failed".toList⟩)
        "out".toList "oops".toList = ExecResult.err "launch failed".toList ∧
    classify [] none execTestAccepting (some ⟨some 1, "launch failed".toList⟩)
        "out".toList "oops".toList ≠
      classifyClaimOrder [] none execTestAccepting (some ⟨some 1, "launch failed".toList⟩)
        "out".toList "oops".toList := by
  decide

/-- C4 amended: the executor's actual precedence.  (b) comes first: if
the allowed-error predicate accepts the sanitized stderr, the result is
the sanitized trimmed stdout regardless of any process error; otherwise
(a) a process error with a JS-truthy exit code outside the allowed set
yields that error, redacted, while a process error whose code is
absent, zero, or allowed falls through to success with stdout (stderr
is not consulted); (c) with no process error, a non-empty sanitized
stderr yields an error carrying it; (d) otherwise the sanitized trimmed
stdout. -/
theorem classify_precedence (secrets : List (List Char)) (allowed : Option (List Int))
    (test : Option (List Char → Bool)) (error? : Option ExecError)
    (stdout stderr : List Char) :
    (allowedMsgOf test secrets stderr = true →
      classify secrets allowed test error? stdout stderr =
        ExecResult.ok (redactSecretsL (trimL stdout) secrets)) ∧
    (allowedMsgOf test secrets stderr = false →
      (∀ e c, error? = some e → e.code = some c → c ≠ 0 →
        includesCode allowed c = false →
        classify secrets allowed test error? stdout stderr =
          ExecResult.err (redactSecretsL e.text secrets)) ∧
      (∀ e c, error? = some e → e.code = some c →
        (c = 0 ∨ includesCode allowed c = true) →
        classify secrets allowed test error? stdout stderr =
          ExecResult.ok (redactSecretsL (trimL stdout) secrets)) ∧
      (∀ e, error? = some e → e.code = none →
        classify secrets allowed test error? stdout stderr =
          ExecResult.ok (redactSecretsL (trimL stdout) secrets)) ∧
      (error? = none → sanitizedStderrOf secrets stderr ≠ [] →
        classify secrets allowed test error? stdout stderr =
          ExecResult.err (sanitizedStderrOf secrets stderr)) ∧
      (error? = none → sanitizedStderrOf secrets stderr = [] →
        classify secrets allowed test error? stdout stderr =
          ExecResult.ok (redactSecretsL (trimL stdout) secrets))) := by
  constructor
  · intro hmsg
    simp [classify, hmsg]
  · intro hmsg
    refine ⟨?_, ?_, ?_, ?_, ?_⟩
    · intro e c he hc hc0 hinc
      subst he
      simp [classify, hmsg, hc, hc0, hinc]
    · intro e c he hc hor
      subst he
      rcases hor with h0 | hinc
      · subst h0
        simp [classify, hmsg, hc]
      · simp [classify, hmsg, hc, hinc]
    · intro e he hc
      subst he
      simp [classify, hmsg, hc]
    · intro he hstderr
      subst he
      simp [classify, hmsg, hstderr]
    · intro he hstderr
      subst he
      simp [classify, hmsg, hstderr]

/-- C4 witness: the predicate-first branch at a concrete input on which
the claim's own order would instead surface the error. -/
theorem classify_precedence_witness :
    classify [] none execTestAccepting (some ⟨some 1, "launch failed".toList⟩)
        "out".toList "oops".toList =
      ExecResult.ok (redactSecretsL (trimL "out".toList) []) :=
  (classify_precedence [] none execTestAccepting
      (some ⟨some 1, "launch failed".toList⟩) "out".toList "oops".toList).1 (by decide)

/-! ### C5 -/

/-- C5 counterexample: `redactSecrets` uses `String.replace` with a
string pattern, which replaces only the first occurrence.  With the
secret occurring twice in the captured stderr, the error the executor
surfaces still contains the secret, and the source redaction disagrees
with replacing every occurrence. -/
theorem redaction_misses_second_occurrence :
    classify ["s3cr3t".toList] none none none
        "".toList "token=s3cr3t s3cr3t".toList =
      ExecResult.err "token={SECRET} s3cr3t".toList ∧
    countOccOv "s3cr3t".toList "token={SECRET} s3cr3t".toList = 1 ∧
    redactSecretsL "token=s3cr3t s3cr3t".toList ["s3cr3t".toList] ≠
      replaceEveryOccurrence "s3cr3t".toList secretPlaceholder
        "token=s3cr3t s3cr3t".toList := by
  decide

/-- C5 amended: redaction replaces, for each configured secret, only
the first occurrence in the text; on texts in which the secret occurs
at most once — as in the spec's example — this coincides with replacing
every occurrence of the secret by the placeholder. -/
theorem redactSecrets_single_occurrence (pat s : List Char) (hp : pat ≠ [])
    (h1 : countOccOv pat s ≤ 1) :
    redactSecretsL s [pat] =
      replaceEveryOccurrence pat secretPlaceholder s := by
  have hfold : redactSecretsL s [pat] = replaceFirstL pat secretPlaceholder s := rfl
  rw [hfold, replaceEveryOccurrence]
  exact replaceFirst_eq_replaceEvery_aux pat secretPlaceholder hp s.length s le_rfl h1

/-- C5 witness: the spec's own redaction example, where the secret
occurs once. -/
theorem redactSecrets_single_occurrence_witness :
    redactSecretsL "token=s3cr3t failed".toList ["s3cr3t".toList] =
      replaceEveryOccurrence "s3cr3t".toList secretPlaceholder
        "token=s3cr3t failed".toList :=
  redactSecrets_single_occurrence "s3cr3t".toList "token=s3cr3t failed".toList
    (by decide) (by decide)

/-! ### C10 -/

/-- C10: `restoreTaskGitlabContext` returns `undefined` when the task
has no recorded pipeline; with a recorded pipeline it returns `null`
exactly when the fetched status is `canceled` or `failed`, and for any
other status (terminal `success` and `skipped` included) it returns a
live handle with the same id, projectId and webUrl, whose `terminate`
and `waitUntilFinished` closures operate over that same pipeline. -/
theorem restoreTaskGitlabContext_spec (p : TaskGitlabPipeline) (st : String) :
    restoreTaskGitlabContext none st = none ∧
    (st = "canceled" ∨ st = "failed" →
      restoreTaskGitlabContext (some p) st = some none) ∧
    (st ≠ "canceled" → st ≠ "failed" →
      restoreTaskGitlabContext (some p) st =
        some (some ⟨p.id, p.projectId, p.webUrl, p, p⟩)) := by
  refine ⟨rfl, ?_, ?_⟩
  · intro h
    rcases h with h | h <;> subst h <;> rfl
  · intro h1 h2
    simp [restoreTaskGitlabContext, getLiveTaskGitlabContext, h1, h2]

/-- C10 witness: a task whose recorded pipeline currently reports the
terminal status `success` is reattached as a live handle. -/
theorem restoreTaskGitlabContext_spec_witness :
    restoreTaskGitlabContext (some ⟨3, 7, "u"⟩) "success" =
      some (some ⟨3, 7, "u", ⟨3, 7, "u"⟩, ⟨3, 7, "u"⟩⟩) :=
  (restoreTaskGitlabContext_spec ⟨3, 7, "u"⟩ "success").2.2 (by decide) (by decide)

/-! ### C2 -/

/-- The serializer's initial state satisfies the invariant. -/
theorem serInv_init : SerInv serInit :=
  ⟨List.nodup_nil, rfl, rfl⟩

/-- Inversion of an enabled `enqueue` transition. -/
theorem serStep_enqueue_inv {s s' : SerState} {i : Nat}
    (h : serStep s (SerEv.enqueue i) = some s') :
    i ∉ s.admitted ∧
      s' = { s with admitted := s.admitted ++ [i], pending := s.pending ++ [i] } := by
  by_cases hi : i ∈ s.admitted
  · simp [serStep, hi] at h
  · simp only [serStep, hi, if_neg, ite_false, Option.some.injEq] at h
    exact ⟨hi, h.symm⟩

/-- Inversion of an enabled `start` transition: the mutex is free, the
starting task is the head of the FIFO wait queue. -/
theorem serStep_start_inv {s s' : SerState} {i : Nat}
    (h : serStep s (SerEv.start i) = some s') :
    s.running = none ∧ ∃ rest, s.pending = i :: rest ∧
      s' = { s with pending := rest, running := some i,
                    started := s.started ++ [i] } := by
  cases hr : s.running with
  | some k => simp [serStep, hr] at h
  | none =>
    cases hp : s.pending with
    | nil => simp [serStep, hr, hp] at h
    | cons j rest =>
      simp only [serStep, hr, hp] at h
      by_cases hji : j = i
      · rw [if_pos hji] at h
        have h2 := Option.some.inj h
        subst hji
        exact ⟨rfl, rest, rfl, h2.symm⟩
      · rw [if_neg hji] at h
        exact absurd h (by simp)

/-- Inversion of an enabled `finish` transition. -/
theorem serStep_finish_inv {s s' : SerState} {i : Nat}
    (h : serStep s (SerEv.finish i) = some s') :
    s.running = some i ∧
      s' = { s with running := none, finished := s.finished ++ [i] } := by
  cases hr : s.running with
  | none => simp [serStep, hr] at h
  | some j =>
    simp only [serStep, hr] at h
    by_cases hji : j = i
    · rw [if_pos hji] at h
      have h2 := Option.some.inj h
      exact ⟨congrArg some hji, h2.symm⟩
    · rw [if_neg hji] at h
      exact absurd h (by simp)

/-- Every enabled serializer transition preserves the invariant. -/
theorem serInv_step {s s' : SerState} {e : SerEv} (hinv : SerInv s)
    (hstep : serStep s e = some s') : SerInv s' := by
  obtain ⟨hnd, hsp, hsf⟩ := hinv
  cases e with
  | enqueue i =>
    obtain ⟨hi, rfl⟩ := serStep_enqueue_inv hstep
    refine ⟨?_, ?_, hsf⟩
    · simp [List.nodup_append, hnd, hi]
    · show s.started ++ (s.pending ++ [i]) = s.admitted ++ [i]
      rw [← List.append_assoc, hsp]
  | start i =>
    obtain ⟨hrun, rest, hpend, rfl⟩ := serStep_start_inv hstep
    refine ⟨hnd, ?_, ?_⟩
    · show (s.started ++ [i]) ++ rest = s.admitted
      rw [List.append_assoc, List.singleton_append, ← hpend, hsp]
    · show s.started ++ [i] = s.finished ++ (some i).toList
      rw [hsf, hrun]
      simp
  | finish i =>
    obtain ⟨hrun, rfl⟩ := serStep_finish_inv hstep
    refine ⟨hnd, hsp, ?_⟩
    show s.started = (s.finished ++ [i]) ++ Option.toList none
    rw [hsf, hrun]
    simp

/-- The invariant holds in every state a valid trace reaches. -/
theorem serInv_runAux :
    ∀ (es : List SerEv) (s0 : SerState), SerInv s0 →
      ∀ s, es.foldlM serStep s0 = some s → SerInv s := by
  intro es
  induction es with
  | nil =>
    intro s0 h s heq
    simp only [List.foldlM_nil] at heq
    cases heq
    exact h
  | cons e rest ih =>
    intro s0 h s heq
    rw [List.foldlM_cons] at heq
    cases hstep : serStep s0 e with
    | none => rw [hstep] at heq; exact absurd heq (by simp)
    | some s1 =>
      rw [hstep] at heq
      simp only [Option.bind_eq_bind, Option.some_bind] at heq
      exact ih s1 (serInv_step h hstep) s heq

/-- In a duplicate-free list of the shape `l1 ++ j :: l2`, anything
that occurs strictly before `j` occurs in `l1`. -/
theorem mem_left_of_sublist_pair {i j : Nat} (hne : i ≠ j) :
    ∀ (l1 l2 : List Nat), (l1 ++ j :: l2).Nodup →
      [i, j].Sublist (l1 ++ j :: l2) → i ∈ l1 := by
  intro l1
  induction l1 with
  | nil =>
    intro l2 hnd h
    exfalso
    simp only [List.nil_append] at hnd h
    have hj : j ∉ l2 := (List.nodup_cons.mp hnd).1
    cases h with
    | cons _ hsub => exact hj (hsub.subset (by simp))
    | cons₂ _ hsub => exact hj (hsub.subset (by simp))
  | cons a m ih =>
    intro l2 hnd h
    simp only [List.cons_append] at hnd h
    cases h with
    | cons _ hsub =>
      exact List.mem_cons_of_mem a (ih l2 (List.nodup_cons.mp hnd).2 hsub)
    | cons₂ _ hsub => exact List.mem_cons_self _ _

/-- C2: serializer mutual exclusion with FIFO admission order.  In any
valid trace whose final event starts task `j`, every task admitted
before `j` has already finished at that moment — the later-admitted
body does not start until every earlier body has fully terminated — and
in every reachable state at most one admitted body is unfinished
(started bodies never exceed finished ones by more than the single
mutex holder). -/
theorem serializer_fifo_start (t1 : List SerEv) (j : Nat) (s : SerState)
    (hrun : runSer (t1 ++ [SerEv.start j]) = some s)
    (i : Nat) (hij : [i, j].Sublist s.admitted) (hne : i ≠ j) :
    i ∈ s.finished ∧
    (∀ es s', runSer es = some s' → s'.started.length ≤ s'.finished.length + 1) := by
  have hglobal : ∀ es s', runSer es = some s' →
      s'.started.length ≤ s'.finished.length + 1 := by
    intro es s' h
    obtain ⟨_, _, hsf⟩ := serInv_runAux es serInit serInv_init s' h
    rw [hsf]
    cases h' : s'.running <;> simp [h']
  refine ⟨?_, hglobal⟩
  rw [runSer, List.foldlM_append] at hrun
  cases h0 : t1.foldlM serStep serInit with
  | none => rw [h0] at hrun; exact absurd hrun (by simp)
  | some s0 =>
    rw [h0] at hrun
    simp only [Option.bind_eq_bind, Option.some_bind, List.foldlM_cons,
      List.foldlM_nil] at hrun
    have hinv : SerInv s0 := serInv_runAux t1 serInit serInv_init s0 h0
    obtain ⟨hnd, hsp, hsf⟩ := hinv
    have hone : serStep s0 (SerEv.start j) = some s := by
      cases hstep : serStep s0 (SerEv.start j) with
      | none => rw [hstep] at hrun; exact absurd hrun (by simp)
      | some s1 =>
        rw [hstep] at hrun
        simp only [Option.bind_eq_bind, Option.some_bind, Option.pure_def,
          Option.some.injEq] at hrun
        rw [hrun]
    obtain ⟨hrunning, rest, hpend, rfl⟩ := serStep_start_inv hone
    have hadm : s0.admitted = s0.started ++ j :: rest := by
      rw [← hsp, hpend]
    have hnd2 : (s0.started ++ j :: rest).Nodup := by
      rw [← hadm]; exact hnd
    have hij2 : [i, j].Sublist (s0.started ++ j :: rest) := by
      rw [← hadm]; simpa using hij
    have hmem : i ∈ s0.started := mem_left_of_sublist_pair hne s0.started rest hnd2 hij2
    have hfin : s0.started = s0.finished := by
      rw [hsf, hrunning]; simp
    show i ∈ s0.finished
    rw [← hfin]
    exact hmem

/-- C2 witness: two tasks admitted in order; the second starts only in
a trace where the first has already finished. -/
theorem serializer_fifo_start_witness :
    0 ∈ (⟨[0, 1], [], some 1, [0, 1], [0]⟩ : SerState).finished ∧
    (∀ es s', runSer es = some s' → s'.started.length ≤ s'.finished.length + 1) :=
  serializer_fifo_start [SerEv.enqueue 0, SerEv.enqueue 1, SerEv.start 0, SerEv.finish 0] 1
    ⟨[0, 1], [], some 1, [0, 1], [0]⟩ (by decide) 0 (by decide) (by decide)

/-! ### Store helper lemmas -/

/-- Membership through sorted insertion. -/
theorem mem_insertByKey {x y : String × PullRequestTask} :
    ∀ {l : Store}, y ∈ insertByKey x l ↔ y = x ∨ y ∈ l := by
  intro l
  induction l with
  | nil => simp [insertByKey]
  | cons z rest ih =>
    by_cases h : x.1 ≤ z.1
    · simp [insertByKey, h]
    · simp only [insertByKey, if_neg h, List.mem_cons, ih]
      tauto

/-- Sorting does not change membership. -/
theorem mem_sortByKey {y : String × PullRequestTask} :
    ∀ {l : Store}, y ∈ sortByKey l ↔ y ∈ l := by
  intro l
  induction l with
  | nil => simp [sortByKey]
  | cons z rest ih => simp [sortByKey, mem_insertByKey, ih]

/-- A scanned item is a store entry. -/
theorem mem_of_mem_getSortedItems {db : Store} {v : String} {inv : Bool}
    {e : String × PullRequestTask} (h : e ∈ getSortedItems db v inv) : e ∈ db :=
  mem_sortByKey.mp (List.mem_filter.mp h).1

/-- The second components of a zip form a sublist of the second list. -/
theorem zip_snd_sublist {α β : Type} :
    ∀ (l1 : List α) (l2 : List β), ((l1.zip l2).map Prod.snd).Sublist l2 := by
  intro l1
  induction l1 with
  | nil => intro l2; simp
  | cons a rest ih =>
    intro l2
    cases l2 with
    | nil => simp
    | cons b l2x =>
      show (b :: ((rest.zip l2x).map Prod.snd)).Sublist (b :: l2x)
      exact List.Sublist.cons₂ b (ih l2x)

/-- Unfolding of one reconciler iteration. -/
theorem requeueStep_eq (acc : Store × List Submission)
    (p : (String × PullRequestTask) × String) :
    requeueStep acc p =
      (dbPut (dbDel acc.1 p.1.1) p.2 p.1.2,
       acc.2 ++ [⟨p.2, p.1.2, getPullRequestHandleId p.1.2⟩]) := rfl

/-- An entry survives `dbPut` under a different key. -/
theorem mem_dbPut_of_mem {db : Store} {id : String} {td : PullRequestTask}
    {e : String × PullRequestTask} (he : e ∈ db) (hne : e.1 ≠ id) :
    e ∈ dbPut db id td :=
  List.mem_append_left _ (List.mem_filter.mpr ⟨he, by simpa using hne⟩)

/-- An entry survives `dbDel` of a different key. -/
theorem mem_dbDel_of_mem {db : Store} {id : String} {e : String × PullRequestTask}
    (he : e ∈ db) (hne : e.1 ≠ id) : e ∈ dbDel db id :=
  List.mem_filter.mpr ⟨he, by simpa using hne⟩

/-- The reconciler's submission log accumulates one submission per
stale pair, each carrying the original task data verbatim. -/
theorem requeue_subs :
    ∀ (pairs : List ((String × PullRequestTask) × String))
      (acc : Store × List Submission),
      (pairs.foldl requeueStep acc).2 =
        acc.2 ++ pairs.map
          (fun p => (⟨p.2, p.1.2, getPullRequestHandleId p.1.2⟩ : Submission)) := by
  intro pairs
  induction pairs with
  | nil => intro acc; simp
  | cons p rest ih =>
    intro acc
    rw [List.foldl_cons, requeueStep_eq, ih]
    simp

/-- A store entry not touched by any remaining pair survives the rest
of the reconciler loop. -/
theorem requeue_preserve :
    ∀ (pairs : List ((String × PullRequestTask) × String))
      (acc : Store × List Submission) (n : String) (td : PullRequestTask),
      (n, td) ∈ acc.1 → (∀ p ∈ pairs, p.1.1 ≠ n ∧ p.2 ≠ n) →
      (n, td) ∈ (pairs.foldl requeueStep acc).1 := by
  intro pairs
  induction pairs with
  | nil => intro acc n td h _; exact h
  | cons p rest ih =>
    intro acc n td h hall
    rw [List.foldl_cons, requeueStep_eq]
    have hp := hall p (List.mem_cons_self p rest)
    exact ih _ n td
      (mem_dbPut_of_mem (mem_dbDel_of_mem h (Ne.symm hp.1)) (Ne.symm hp.2))
      (fun q hq => hall q (List.mem_cons_of_mem p hq))

/-- A key absent from the store and not among the remaining fresh ids
stays absent through the rest of the reconciler loop. -/
theorem requeue_no_key :
    ∀ (pairs : List ((String × PullRequestTask) × String))
      (acc : Store × List Submission) (k : String),
      (∀ e ∈ acc.1, e.1 ≠ k) → (∀ p ∈ pairs, p.2 ≠ k) →
      ∀ e ∈ (pairs.foldl requeueStep acc).1, e.1 ≠ k := by
  intro pairs
  induction pairs with
  | nil => intro acc k h _ e he; exact h e he
  | cons p rest ih =>
    intro acc k h hall
    rw [List.foldl_cons, requeueStep_eq]
    apply ih _ k ?_ (fun q hq => hall q (List.mem_cons_of_mem p hq))
    intro e he
    rcases List.mem_append.mp he with hl | hr
    · exact h e (List.mem_filter.mp (List.mem_filter.mp hl).1).1
    · have hep : e = (p.2, p.1.2) := by simpa using hr
      rw [hep]
      exact hall p (List.mem_cons_self p rest)

/-- Every entry of the reconciled store is an initial entry or one
written by some processed pair — with the pair's task data verbatim. -/
theorem requeue_provenance :
    ∀ (pairs : List ((String × PullRequestTask) × String))
      (acc : Store × List Submission) (x : String × PullRequestTask),
      x ∈ (pairs.foldl requeueStep acc).1 →
      x ∈ acc.1 ∨ ∃ p ∈ pairs, x = (p.2, p.1.2) := by
  intro pairs
  induction pairs with
  | nil => intro acc x h; exact Or.inl h
  | cons p rest ih =>
    intro acc x h
    rw [List.foldl_cons, requeueStep_eq] at h
    rcases ih _ x h with hacc | ⟨q, hq, hx⟩
    · rcases List.mem_append.mp hacc with hl | hr
      · exact Or.inl (List.mem_filter.mp (List.mem_filter.mp hl).1).1
      · have hxp : x = (p.2, p.1.2) := by simpa using hr
        exact Or.inr ⟨p, List.mem_cons_self p rest, hxp⟩
    · exact Or.inr ⟨q, List.mem_cons_of_mem p hq, hx⟩

/-! ### C8 -/

/-- C8: at startup, every stale-version store entry is deleted and
resubmitted through the queue as a fresh submission: under fresh,
mutually distinct queue-generated ids, the reconciled store contains
the task data verbatim under the new id (so command, environment,
branch-preparation parameters and result-sink fields are identical to
the original's), the new id differs from the old one, the old id is
gone from the store, and the resubmission went through the queue under
the task's pull-request handle id. -/
theorem requeueUnterminated_resubmits (db : Store) (bootVersion : String)
    (freshIds : List String)
    (hdisj : ∀ f ∈ freshIds, ∀ e ∈ db, e.1 ≠ f)
    (hnodup : freshIds.Nodup)
    (oldId : String) (td : PullRequestTask) (newId : String)
    (hmem : ((oldId, td), newId) ∈ (getSortedItems db bootVersion true).zip freshIds) :
    (newId, td) ∈ (requeueUnterminated db bootVersion freshIds).1 ∧
    newId ≠ oldId ∧
    (∀ e ∈ (requeueUnterminated db bootVersion freshIds).1, e.1 ≠ oldId) ∧
    (⟨newId, td, getPullRequestHandleId td⟩ : Submission) ∈
      (requeueUnterminated db bootVersion freshIds).2 := by
  have hnewFresh : newId ∈ freshIds := (List.of_mem_zip hmem).2
  have holdStale : (oldId, td) ∈ getSortedItems db bootVersion true :=
    (List.of_mem_zip hmem).1
  have holdDb : (oldId, td) ∈ db := mem_of_mem_getSortedItems holdStale
  have holdNotFresh : ∀ f ∈ freshIds, oldId ≠ f := fun f hf =>
    hdisj f hf (oldId, td) holdDb
  have hneq : newId ≠ oldId := Ne.symm (holdNotFresh newId hnewFresh)
  obtain ⟨l1, l2, hsplit⟩ :=
    List.append_of_mem (l := (getSortedItems db bootVersion true).zip freshIds) hmem
  have hsndNodup :
      (((getSortedItems db bootVersion true).zip freshIds).map Prod.snd).Nodup :=
    (zip_snd_sublist _ _).nodup hnodup
  have hnewNotInL2 : newId ∉ l2.map Prod.snd := by
    rw [hsplit] at hsndNodup
    simp only [List.map_append, List.map_cons] at hsndNodup
    have := (List.nodup_append.mp hsndNodup).2.1
    exact (List.nodup_cons.mp this).1
  have hl2 : ∀ p ∈ l2, p.1.1 ≠ newId ∧ p.2 ≠ newId := by
    intro p hp
    have hpPairs : p ∈ (getSortedItems db bootVersion true).zip freshIds := by
      rw [hsplit]
      exact List.mem_append_right _ (List.mem_cons_of_mem _ hp)
    have hpDb : p.1 ∈ db := mem_of_mem_getSortedItems (List.of_mem_zip hpPairs).1
    constructor
    · exact hdisj newId hnewFresh p.1 hpDb
    · intro hc
      exact hnewNotInL2 (hc ▸ List.mem_map_of_mem Prod.snd hp)
  have hl2old : ∀ p ∈ l2, p.2 ≠ oldId := by
    intro p hp
    have hpPairs : p ∈ (getSortedItems db bootVersion true).zip freshIds := by
      rw [hsplit]
      exact List.mem_append_right _ (List.mem_cons_of_mem _ hp)
    have : p.2 ∈ freshIds := (List.of_mem_zip hpPairs).2
    exact Ne.symm (holdNotFresh p.2 this)
  have hfold : (requeueUnterminated db bootVersion freshIds) =
      l2.foldl requeueStep
        (requeueStep (l1.foldl requeueStep (db, [])) ((oldId, td), newId)) := by
    rw [requeueUnterminated, hsplit, List.foldl_append, List.foldl_cons]
  refine ⟨?_, hneq, ?_, ?_⟩
  · rw [hfold]
    apply requeue_preserve l2 _ newId td ?_ hl2
    rw [requeueStep_eq]
    exact List.mem_append_right _ (by simp)
  · rw [hfold]
    apply requeue_no_key l2 _ oldId ?_ hl2old
    rw [requeueStep_eq]
    intro e he
    rcases List.mem_append.mp he with hl | hr
    · have hdel := (List.mem_filter.mp (List.mem_filter.mp hl).1).2
      simpa using hdel
    · have hep : e = (newId, td) := by simpa using hr
      rw [hep]
      exact hneq
  · rw [requeueUnterminated, requeue_subs, hsplit]
    simp only [List.nil_append, List.map_append, List.map_cons]
    exact List.mem_append_right _ (List.mem_cons_self _ _)

/-- C8 witness: a store holding one task from a previous run under id
`t0` is reconciled with boot version `v1` and fresh id `t1`. -/
theorem requeueUnterminated_resubmits_witness :
    ("t1", sampleTaskV0) ∈ (requeueUnterminated [("t0", sampleTaskV0)] "v1" ["t1"]).1 ∧
    "t1" ≠ "t0" ∧
    (∀ e ∈ (requeueUnterminated [("t0", sampleTaskV0)] "v1" ["t1"]).1, e.1 ≠ "t0") ∧
    (⟨"t1", sampleTaskV0, getPullRequestHandleId sampleTaskV0⟩ : Submission) ∈
      (requeueUnterminated [("t0", sampleTaskV0)] "v1" ["t1"]).2 :=
  requeueUnterminated_resubmits [("t0", sampleTaskV0)] "v1" ["t1"]
    (by decide) (by decide) "t0" sampleTaskV0 "t1" (by decide)

/-! ### C7 -/

/-- C7 counterexample: the reconciler resubmits the abandoned task with
its task data — version included — stored verbatim, so during the run
the store holds a task whose version `v0` differs from the boot version
`v1` while that very task is legitimately in flight (it was submitted
through the queue by this process instance). -/
theorem stale_version_task_in_flight :
    ("t1", sampleTaskV0) ∈ (requeueUnterminated [("t0", sampleTaskV0)] "v1" ["t1"]).1 ∧
    (⟨"t1", sampleTaskV0, getPullRequestHandleId sampleTaskV0⟩ : Submission) ∈
      (requeueUnterminated [("t0", sampleTaskV0)] "v1" ["t1"]).2 ∧
    sampleTaskV0.version = "v0" ∧
    sampleTaskV0.version ≠ "v1" := by
  decide

/-- C7 amended: the abandoned-work reading of the version tag is sound
only for the store as scanned at boot, before resubmission: every entry
of the reconciled store is either an original entry or a resubmission
carrying its original task data verbatim — in particular the original
(previous instance's) version, not the current process's version — so
a stale-version entry found during the run may be a legitimately
in-flight requeued task. -/
theorem requeued_tasks_keep_their_version (db : Store) (bootVersion : String)
    (freshIds : List String) (id : String) (td : PullRequestTask)
    (hmem : (id, td) ∈ (requeueUnterminated db bootVersion freshIds).1) :
    (id, td) ∈ db ∨
      ∃ oldId, ((oldId, td), id) ∈ (getSortedItems db bootVersion true).zip freshIds := by
  rw [requeueUnterminated] at hmem
  rcases requeue_provenance _ _ _ hmem with h | ⟨⟨⟨oid, otd⟩, nid⟩, hp, hx⟩
  · exact Or.inl h
  · have h1 : id = nid := congrArg Prod.fst hx
    have h2 : td = otd := congrArg Prod.snd hx
    subst h1
    subst h2
    exact Or.inr ⟨oid, hp⟩

/-- C7 witness: the resubmitted entry of the counterexample run indeed
originates from the stale original with unchanged task data. -/
theorem requeued_tasks_keep_their_version_witness :
    ("t1", sampleTaskV0) ∈ ([("t0", sampleTaskV0)] : Store) ∨
      ∃ oldId, ((oldId, sampleTaskV0), "t1") ∈
        (getSortedItems [("t0", sampleTaskV0)] "v1" true).zip ["t1"] :=
  requeued_tasks_keep_their_version [("t0", sampleTaskV0)] "v1" ["t1"] "t1"
    sampleTaskV0 (by decide)

end TryRuntimeBot
